import Mathlib

/-!
Shallow embedding of the LogLine governance engine from the `danvoulez/multi-tenant`
repository: the law parser (`src/lib/governance/law-parser.ts`), the triage engine
(`evaluateExpression`, `evaluateLaw`, `composeActions`, `actionToObligation`), span
validation and time helpers (`src/lib/governance/metrics.ts`), and the Midnight Ruler
scheduler (`src/lib/governance/midnight-ruler.ts`).

Strings are handled at the `List Char` level; JavaScript runtime behaviour that the
source delegates to the platform (regular-expression matching with `\b` boundaries,
`JSON.stringify`, loose comparison semantics of `==`/`>=` with `null`, `Date`
construction in the host timezone, `Intl.DateTimeFormat` date extraction for a target
timezone) is modelled explicitly and faithfully to ECMAScript for the value types
that actually occur in the engine (numbers, booleans, null).
-/

set_option maxRecDepth 10000

/-- Computable check that an `Except` value is a success. -/
def exceptIsOk : Except String α → Bool
  | .ok _ => true
  | .error _ => false

/-- JavaScript `\w` word character class: ASCII letters, digits, underscore. -/
def wordCharB (c : Char) : Bool :=
  c.isAlpha || c.isDigit || c == '_'

/-- Whitespace trimmed by JavaScript `String.prototype.trim` (common cases). -/
def isJsSpace (c : Char) : Bool :=
  c == ' ' || c == '\t' || c == '\n' || c == '\r'

/-- Decimal digit character for a digit value 0..9. -/
def digitChar : Nat → Char
  | 0 => '0' | 1 => '1' | 2 => '2' | 3 => '3' | 4 => '4'
  | 5 => '5' | 6 => '6' | 7 => '7' | 8 => '8' | _ => '9'

/-- Decimal rendering, fueled for structural recursion (any `fuel > n` is
enough, since `n / 10 < n` for positive `n`). -/
def natToDigitsAux : Nat → Nat → List Char
  | 0, _ => []
  | fuel + 1, n =>
    if n < 10 then [digitChar n]
    else natToDigitsAux fuel (n / 10) ++ [digitChar (n % 10)]

/-- Decimal rendering of a natural number, most significant digit first. -/
def natToDigits (n : Nat) : List Char :=
  natToDigitsAux (n + 1) n

/-- Numeric value of a decimal digit string (the model of `parseInt(s, 10)` on an
all-digit string). -/
def digitsVal (l : List Char) : Nat :=
  l.foldl (fun a c => a * 10 + (c.toNat - 48)) 0

/-- Decimal rendering of an integer (the model of JavaScript number-to-string for
integral values, as produced by template interpolation and `JSON.stringify`). -/
def intReprChars (n : Int) : List Char :=
  if n < 0 then '-' :: natToDigits n.natAbs else natToDigits n.natAbs

/-- Boolean list-prefix test, the model of `String.prototype.startsWith`. -/
def isPrefixChars : List Char → List Char → Bool
  | [], _ => true
  | _ :: _, [] => false
  | p :: ps, c :: cs => p == c && isPrefixChars ps cs

/-- Split a character list at every occurrence of `c`, the model of
`String.prototype.split` with a one-character separator. -/
def splitOnChar (c : Char) : List Char → List (List Char)
  | [] => [[]]
  | x :: xs =>
    if x == c then [] :: splitOnChar c xs
    else
      match splitOnChar c xs with
      | [] => [[x]]
      | y :: ys => (x :: y) :: ys

/-- Trim JavaScript whitespace from both ends, the model of `String.prototype.trim`. -/
def jsTrim (l : List Char) : List Char :=
  ((l.dropWhile isJsSpace).reverse.dropWhile isJsSpace).reverse

/-- Remove the first occurrence of `pat` from `l`, the model of
`String.prototype.replace(pat, "")` with a plain-string pattern. -/
def removeFirst (pat : List Char) : List Char → List Char
  | [] => []
  | c :: cs =>
    if isPrefixChars pat (c :: cs) then (c :: cs).drop pat.length
    else c :: removeFirst pat cs

/-- Strip a literal prefix, returning the remainder when it is present. -/
def stripLit (pat l : List Char) : Option (List Char) :=
  if isPrefixChars pat l then some (l.drop pat.length) else none

/-- Try a matcher at every start position, leftmost first: the model of an
unanchored regular-expression search. -/
def searchM (f : List Char → Option α) : List Char → Option α
  | [] => f []
  | c :: cs =>
    match f (c :: cs) with
    | some r => some r
    | none => searchM f cs

/-- The JavaScript values that occur in the engine's expression evaluation:
numbers (the timestamps and counts are integral), booleans and `null`. -/
inductive JSValue
  | num (n : Int)
  | null
  | bool (b : Bool)
deriving DecidableEq, Repr

/-- Rendering used when substituting variable values into the expression text:
`JSON.stringify` (`JSON.stringify(NaN)` is the string `null`, so an invalid date
already enters as `JSValue.null`). -/
def jsonStringifyChars : JSValue → List Char
  | .num n => intReprChars n
  | .null => "null".data
  | .bool true => "true".data
  | .bool false => "false".data

/-- ECMAScript `ToNumber` on the value fragment used here. -/
def toNumberJS : JSValue → Int
  | .num n => n
  | .null => 0
  | .bool true => 1
  | .bool false => 0

/-- ECMAScript truthiness. -/
def truthyJS : JSValue → Bool
  | .num n => n != 0
  | .null => false
  | .bool b => b

/-- ECMAScript loose equality `==` on the value fragment used here: `null` is
loosely equal only to `null`; booleans are converted with `ToNumber`. -/
def looseEq : JSValue → JSValue → Bool
  | .null, .null => true
  | .null, _ => false
  | _, .null => false
  | .num a, .num b => a == b
  | .num a, .bool b => a == toNumberJS (.bool b)
  | .bool a, .num b => toNumberJS (.bool a) == b
  | .bool a, .bool b => a == b

/-- ECMAScript strict equality `===`. -/
def strictEq (a b : JSValue) : Bool :=
  a == b

/-- Days since the Unix epoch of a proleptic-Gregorian civil date
(Howard Hinnant's `days_from_civil`, with floor division). -/
def civilToDays (y m d : Int) : Int :=
  let y' := if m ≤ 2 then y - 1 else y
  let era := y'.fdiv 400
  let yoe := y' - era * 400
  let mp := (m + 9).emod 12
  let doy := (153 * mp + 2).fdiv 5 + d - 1
  let doe := yoe * 365 + yoe.fdiv 4 - yoe.fdiv 100 + doy
  era * 146097 + doe - 719468

/-- Civil date from days since the Unix epoch (`civil_from_days`). -/
def daysToCivil (z : Int) : Int × Int × Int :=
  let z' := z + 719468
  let era := z'.fdiv 146097
  let doe := z' - era * 146097
  let yoe := (doe - doe.fdiv 1460 + doe.fdiv 36524 - doe.fdiv 146096).fdiv 365
  let y := yoe + era * 400
  let doy := doe - (365 * yoe + yoe.fdiv 4 - yoe.fdiv 100)
  let mp := (5 * doy + 2).fdiv 153
  let d := doy - (153 * mp + 2).fdiv 5 + 1
  let m := mp + (if mp < 10 then 3 else -9)
  (if m ≤ 2 then y + 1 else y, m, d)

/-- Read exactly `n` decimal digits from the front of a character list. -/
def takeDigitsN (n : Nat) (l : List Char) : Option (Nat × List Char) :=
  let taken := l.take n
  if taken.length == n && taken.all Char.isDigit then
    some (digitsVal taken, l.drop n)
  else none

/-- Expect one specific character at the front. -/
def expectChar (c : Char) : List Char → Option (List Char)
  | [] => none
  | x :: xs => if x == c then some xs else none

/-- Model of `new Date(isoString).getTime()` for the ISO-8601 UTC timestamps
(`YYYY-MM-DDTHH:MM:SS[.mmm]Z`) used throughout the repository; any other shape
is an invalid date (JavaScript `NaN`, reported here as `none`). -/
def parseDateMs (s : String) : Option Int := do
  let (y, r1) ← takeDigitsN 4 s.data
  let r2 ← expectChar '-' r1
  let (mo, r3) ← takeDigitsN 2 r2
  let r4 ← expectChar '-' r3
  let (d, r5) ← takeDigitsN 2 r4
  let r6 ← expectChar 'T' r5
  let (h, r7) ← takeDigitsN 2 r6
  let r8 ← expectChar ':' r7
  let (mi, r9) ← takeDigitsN 2 r8
  let r10 ← expectChar ':' r9
  let (ss, r11) ← takeDigitsN 2 r10
  let (ms, r12) ←
    match r11 with
    | '.' :: rest => do
      let (f, r) ← takeDigitsN 3 rest
      pure (f, r)
    | _ => pure (0, r11)
  let r13 ← expectChar 'Z' r12
  if r13 = [] && 1 ≤ mo && mo ≤ 12 && 1 ≤ d && d ≤ 31 && h ≤ 23 && mi ≤ 59 && ss ≤ 59 then
    pure ((civilToDays (y : Int) (mo : Int) (d : Int)) * 86400000
      + (h : Int) * 3600000 + (mi : Int) * 60000 + (ss : Int) * 1000 + (ms : Int))
  else none

/-! ## Data model (`src/lib/governance/types.ts`) -/

/-- One entry of `resource.approvals`. -/
structure Approval where
  who : String
  role : String
  timestamp : String
deriving DecidableEq, Repr

/-- The optional `resource.evidence` object. -/
structure EvidenceM where
  missing : Option Bool
deriving DecidableEq, Repr

/-- The `resource` object of a governable span. Optional fields are `Option`;
runtime objects may also lack the nominally required `type`/`id` (they are what
`validateGovernableSpan` checks), so those are plain strings where the empty
string is falsy, matching the validator's `!span.resource?.type` tests. -/
structure ResourceM where
  type : String
  id : String
  deadline_at : Option String
  accepted : Option Bool
  approvals : Option (List Approval)
  evidence : Option EvidenceM
deriving DecidableEq, Repr

/-- The `who` object; fields may be absent at runtime (`Partial` spans). -/
structure WhoM where
  id : Option String
  role : Option String
deriving DecidableEq, Repr

/-- The `clock` object. -/
structure ClockM where
  ts : Option String
  tz : Option String
deriving DecidableEq, Repr

/-- The optional `law` selector on a governable span. -/
structure LawSel where
  scope : String
  targets : List String
deriving DecidableEq, Repr

/-- A governable span as the engine receives it at runtime: every constitutionally
required field may be missing (the TypeScript validator takes
`Partial<GovernableSpan>`). -/
structure GovernableSpan where
  id : String
  tenant_id : Option String
  app : Option String
  resource : Option ResourceM
  who : Option WhoM
  clock : Option ClockM
  trace_id : Option String
  idempotency_key : Option String
  law : Option LawSel
deriving DecidableEq, Repr

/-- Tenant configuration passed to `buildEvaluationContext`. -/
structure TenantCfg where
  id : String
  quorum : Int
  timezone : String
deriving DecidableEq, Repr

/-- Span metadata inside an evaluation context. -/
structure SpanRef where
  id : String
  trace_id : String
deriving DecidableEq, Repr

/-- Evaluation context (`EvaluationContext` in `types.ts`): `now` is the ISO
timestamp string, user settings are an ordered key/value list (JavaScript object
insertion order), restricted to the value fragment the engine manipulates. -/
structure EvaluationContext where
  now : String
  tenant : TenantCfg
  user : Option (List (String × JSValue))
  resource : ResourceM
  span : SpanRef
deriving DecidableEq, Repr

/-- Law actions (`LawAction` in `types.ts`). `hours` is a natural number, per the
grammar token `hold(hours=<int>)`. -/
inductive LawAction
  | accept
  | hold (hours : Nat)
  | terminate (reason : String)
  | notify (role : String)
  | tag (key val : String)
  | append_ledger
  | emit (event : String)
deriving DecidableEq, Repr

/-- Triage outcomes. -/
inductive TriageOutcome
  | ok
  | doubt
  | not
deriving DecidableEq, Repr

/-- One triage block: a condition expression plus an ordered action list. -/
structure TriageBlock where
  condition : String
  actions : List LawAction
deriving DecidableEq, Repr

/-- The three triage blocks of a law. -/
structure Triage where
  ok : TriageBlock
  doubt : TriageBlock
  not : TriageBlock
deriving DecidableEq, Repr

/-- A parsed law definition (`LawDefinition` in `types.ts`; the unused optional
`settings` record is omitted). -/
structure LawDefinition where
  id : String
  version : String
  scope : String
  clock : String
  triage : Triage
  hash : Option String
deriving DecidableEq, Repr

/-- Constitutional policy layers (`PolicyLayer` in `types.ts`). -/
inductive PolicyLayer
  | constitution
  | superior
  | app_regulatory
  | tenant
  | user
deriving DecidableEq, Repr

/-! ## Expression evaluation (`evaluateExpression`, `src/unnamed/part_005`)

The source substitutes variable values textually into the expression with
`expr.replace(new RegExp("\\b" + name.replace(".", "\\.") + "\\b", "g"), JSON.stringify(v))`
(note: `String.replace` with a string pattern escapes only the FIRST dot; later
dots stay regular-expression wildcards), rewrites the word operators
`NOT`/`AND`/`OR` to `!`/`&&`/`||`, and hands the resulting text to the JavaScript
engine via `new Function`. The JavaScript lexing/parsing/evaluation of that text
is modelled below with ECMAScript semantics; any lexing or parsing fault, or a
`ReferenceError` from a leftover identifier, is the `catch` path and yields
`false`. -/

/-- One element of a compiled textual pattern: a literal character, or the
regular-expression wildcard `.` left unescaped by `name.replace(".", "\\.")`. -/
inductive PatChar
  | litc (c : Char)
  | anyc
deriving DecidableEq, Repr

/-- Compile a variable name into its pattern: the first dot is escaped (literal),
subsequent dots remain wildcards. -/
def buildPat : List Char → Bool → List PatChar
  | [], _ => []
  | c :: cs, dotDone =>
    if c == '.' then
      if dotDone then .anyc :: buildPat cs true
      else .litc '.' :: buildPat cs true
    else .litc c :: buildPat cs dotDone

/-- Match a pattern at the head of the input, returning the remainder. The
wildcard matches any character except a newline. -/
def matchPatAt : List PatChar → List Char → Option (List Char)
  | [], l => some l
  | _ :: _, [] => none
  | .litc c :: ps, x :: xs => if x == c then matchPatAt ps xs else none
  | .anyc :: ps, x :: xs => if x == '\n' then none else matchPatAt ps xs

/-- Word-ness of the character adjacent to a match, with the string boundary
counting as non-word (the `\b` rule). -/
def isWordOpt : Option Char → Bool
  | none => false
  | some c => wordCharB c

/-- Global regular-expression replacement with `\b` on both sides of the pattern,
scanning left to right over the original text; `prev` is the original character
just before the current position. `fuel` dominates the scan length (patterns are
nonempty in every use). -/
def replaceGo (pat : List PatChar) (val : List Char) : Nat → Option Char → List Char → List Char
  | 0, _, l => l
  | _ + 1, _, [] => []
  | fuel + 1, prev, c :: cs =>
    match matchPatAt pat (c :: cs) with
    | some rest =>
      let consumed := (c :: cs).take (pat.length)
      if (isWordOpt prev != isWordOpt (some c))
          && (isWordOpt consumed.getLast? != isWordOpt rest.head?) then
        val ++ replaceGo pat val fuel consumed.getLast? rest
      else c :: replaceGo pat val fuel (some c) cs
    | none => c :: replaceGo pat val fuel (some c) cs

/-- Replace every `\b`-delimited occurrence of `name` in `s` by `val`
(the model of `s.replace(new RegExp(...), val)` as built in the source). -/
def replaceAllWB (name : List Char) (val : List Char) (s : List Char) : List Char :=
  replaceGo (buildPat name false) val (s.length + 1) none s

/-- The variable context of `evaluateExpression`, in JavaScript object insertion
order: `now`, `deadline_at`, `accepted`, `approvals.count`, `quorum`,
`evidence.missing`, then the `user.settings.*` entries. -/
def buildVariables (ctx : EvaluationContext) : List (String × JSValue) :=
  [("now", match parseDateMs ctx.now with
           | some ms => JSValue.num ms
           | none => JSValue.null),
   ("deadline_at", match ctx.resource.deadline_at with
                   | some s =>
                     match parseDateMs s with
                     | some ms => JSValue.num ms
                     | none => JSValue.null
                   | none => JSValue.null),
   ("accepted", match ctx.resource.accepted with
                | some b => JSValue.bool b
                | none => JSValue.null),
   ("approvals.count", JSValue.num (match ctx.resource.approvals with
                                    | some l => (l.length : Int)
                                    | none => 0)),
   ("quorum", JSValue.num ctx.tenant.quorum),
   ("evidence.missing", match ctx.resource.evidence with
                        | some e =>
                          match e.missing with
                          | some b => JSValue.bool b
                          | none => JSValue.null
                        | none => JSValue.null)]
  ++ (match ctx.user with
      | some settings => settings.map (fun kv => ("user.settings." ++ kv.1, kv.2))
      | none => [])

/-- Textual substitution phase of `evaluateExpression`: variables first (in
order), then the word operators, then the identity rewrites of `true`/`false`
present in the source. -/
def substituteVars (expr : String) (ctx : EvaluationContext) : List Char :=
  let afterVars := (buildVariables ctx).foldl
    (fun s kv => replaceAllWB kv.1.data (jsonStringifyChars kv.2) s) expr.data
  let s1 := replaceAllWB "NOT".data "!".data afterVars
  let s2 := replaceAllWB "AND".data "&&".data s1
  let s3 := replaceAllWB "OR".data "||".data s2
  let s4 := replaceAllWB "true".data "true".data s3
  replaceAllWB "false".data "false".data s4

/-- Tokens of the substituted expression text. -/
inductive Tok
  | num (n : Nat)
  | word (w : List Char)
  | andT | orT | notT
  | geT | leT | gtT | ltT
  | eqT | neqT | seqT | sneqT
  | lparen | rparen | minusT
deriving DecidableEq, Repr

/-- Dropping a prefix never lengthens a list (termination helper). -/
theorem lengthDropWhileLe (p : Char → Bool) (l : List Char) :
    (l.dropWhile p).length ≤ l.length := by
  induction l with
  | nil => simp [List.dropWhile]
  | cons c cs ih =>
    simp only [List.dropWhile]
    split
    · simp only [List.length_cons]
      omega
    · simp

/-- Lexer for the substituted expression text, fueled for structural recursion
(every step consumes at least one character, so `fuel > length` is enough);
an unexpected character is a `SyntaxError` (caught by `evaluateExpression`). -/
def tokenizeAux : Nat → List Char → Except String (List Tok)
  | 0, _ => .error "SyntaxError: lexer fuel exhausted"
  | _ + 1, [] => .ok []
  | fuel + 1, '=' :: '=' :: '=' :: cs => (tokenizeAux fuel cs).map (Tok.seqT :: ·)
  | fuel + 1, '!' :: '=' :: '=' :: cs => (tokenizeAux fuel cs).map (Tok.sneqT :: ·)
  | fuel + 1, '=' :: '=' :: cs => (tokenizeAux fuel cs).map (Tok.eqT :: ·)
  | fuel + 1, '!' :: '=' :: cs => (tokenizeAux fuel cs).map (Tok.neqT :: ·)
  | fuel + 1, '>' :: '=' :: cs => (tokenizeAux fuel cs).map (Tok.geT :: ·)
  | fuel + 1, '<' :: '=' :: cs => (tokenizeAux fuel cs).map (Tok.leT :: ·)
  | fuel + 1, '&' :: '&' :: cs => (tokenizeAux fuel cs).map (Tok.andT :: ·)
  | fuel + 1, '>' :: cs => (tokenizeAux fuel cs).map (Tok.gtT :: ·)
  | fuel + 1, '<' :: cs => (tokenizeAux fuel cs).map (Tok.ltT :: ·)
  | fuel + 1, '!' :: cs => (tokenizeAux fuel cs).map (Tok.notT :: ·)
  | fuel + 1, '(' :: cs => (tokenizeAux fuel cs).map (Tok.lparen :: ·)
  | fuel + 1, ')' :: cs => (tokenizeAux fuel cs).map (Tok.rparen :: ·)
  | fuel + 1, '-' :: cs => (tokenizeAux fuel cs).map (Tok.minusT :: ·)
  | fuel + 1, '|' :: c2 :: cs =>
    if c2 == '|' then (tokenizeAux fuel cs).map (Tok.orT :: ·)
    else .error "SyntaxError: unexpected character"
  | fuel + 1, c :: cs =>
    if isJsSpace c then tokenizeAux fuel cs
    else if c.isDigit then
      (tokenizeAux fuel (cs.dropWhile Char.isDigit)).map
        (Tok.num (digitsVal (c :: cs.takeWhile Char.isDigit)) :: ·)
    else if wordCharB c then
      (tokenizeAux fuel (cs.dropWhile wordCharB)).map
        (Tok.word (c :: cs.takeWhile wordCharB) :: ·)
    else .error "SyntaxError: unexpected character"

/-- Lexer entry point. -/
def tokenize (l : List Char) : Except String (List Tok) :=
  tokenizeAux (l.length + 1) l

/-- Comparison operators of the expression language. -/
inductive CmpOp
  | ge | le | gt | lt | eq | neq | seq | sneq
deriving DecidableEq, Repr

/-- Abstract syntax of the JavaScript expression fragment the engine evaluates. -/
inductive JExpr
  | lit (v : JSValue)
  | varE (name : String)
  | notE (e : JExpr)
  | negE (e : JExpr)
  | andE (a b : JExpr)
  | orE (a b : JExpr)
  | cmpE (op : CmpOp) (a b : JExpr)
deriving DecidableEq, Repr

/-- Binary operators with their JavaScript precedence
(`||` 1 < `&&` 2 < equality 3 < relational 4). -/
def binOpOf : Tok → Option (Nat × (JExpr → JExpr → JExpr))
  | .orT => some (1, JExpr.orE)
  | .andT => some (2, JExpr.andE)
  | .eqT => some (3, JExpr.cmpE .eq)
  | .neqT => some (3, JExpr.cmpE .neq)
  | .seqT => some (3, JExpr.cmpE .seq)
  | .sneqT => some (3, JExpr.cmpE .sneq)
  | .geT => some (4, JExpr.cmpE .ge)
  | .leT => some (4, JExpr.cmpE .le)
  | .gtT => some (4, JExpr.cmpE .gt)
  | .ltT => some (4, JExpr.cmpE .lt)
  | _ => none

/-- Parser mode: start of an expression at a minimum binding power, or the
binary-operator loop continuing a parsed left operand. -/
inductive PMode
  | expr (minPrec : Nat)
  | rest (minPrec : Nat) (lhs : JExpr)

/-- Precedence-climbing parser for the expression fragment (fueled; the fuel
passed by `parseJExpr` dominates the recursion depth). -/
def parseP : Nat → PMode → List Tok → Except String (JExpr × List Tok)
  | 0, _, _ => .error "SyntaxError: expression too deep"
  | fuel + 1, .expr minPrec, toks =>
    match toks with
    | .notT :: rest => do
      let (e, r) ← parseP fuel (.expr 5) rest
      parseP fuel (.rest minPrec (JExpr.notE e)) r
    | .minusT :: rest => do
      let (e, r) ← parseP fuel (.expr 5) rest
      parseP fuel (.rest minPrec (JExpr.negE e)) r
    | .lparen :: rest => do
      let (e, r) ← parseP fuel (.expr 0) rest
      match r with
      | .rparen :: r2 => parseP fuel (.rest minPrec e) r2
      | _ => .error "SyntaxError: expected closing paren"
    | .num n :: rest => parseP fuel (.rest minPrec (JExpr.lit (.num (n : Int)))) rest
    | .word w :: rest =>
      let e :=
        if w = "null".data then JExpr.lit .null
        else if w = "true".data then JExpr.lit (.bool true)
        else if w = "false".data then JExpr.lit (.bool false)
        else JExpr.varE (String.mk w)
      parseP fuel (.rest minPrec e) rest
    | _ => .error "SyntaxError: unexpected token"
  | fuel + 1, .rest minPrec lhs, toks =>
    match toks with
    | [] => .ok (lhs, [])
    | t :: rest' =>
      match binOpOf t with
      | some (prec, mk) =>
        if minPrec ≤ prec then do
          let (rhs, r) ← parseP fuel (.expr (prec + 1)) rest'
          parseP fuel (.rest minPrec (mk lhs rhs)) r
        else .ok (lhs, toks)
      | none => .ok (lhs, toks)

/-- Parse a full expression; leftover tokens are a `SyntaxError` (the source
wraps the text as `return (<text>)`). -/
def parseJExpr (toks : List Tok) : Except String JExpr := do
  let (e, rest) ← parseP (4 * toks.length + 4) (.expr 0) toks
  if rest = [] then .ok e else .error "SyntaxError: unexpected trailing tokens"

/-- Evaluate a comparison with ECMAScript coercions: relational operators apply
`ToNumber` to both operands (so `null` compares as `0`), `==`/`!=` use loose
equality, `===`/`!==` strict equality. -/
def evalCmp : CmpOp → JSValue → JSValue → Bool
  | .ge, a, b => toNumberJS b ≤ toNumberJS a
  | .le, a, b => toNumberJS a ≤ toNumberJS b
  | .gt, a, b => toNumberJS b < toNumberJS a
  | .lt, a, b => toNumberJS a < toNumberJS b
  | .eq, a, b => looseEq a b
  | .neq, a, b => !looseEq a b
  | .seq, a, b => strictEq a b
  | .sneq, a, b => !strictEq a b

/-- Evaluator with ECMAScript semantics; `&&`/`||` return operand values and
short-circuit, an identifier left unreplaced is a `ReferenceError`. -/
def evalJ : JExpr → Except String JSValue
  | .lit v => .ok v
  | .varE n => .error ("ReferenceError: " ++ n ++ " is not defined")
  | .notE e => do
    let v ← evalJ e
    .ok (.bool (!truthyJS v))
  | .negE e => do
    let v ← evalJ e
    .ok (.num (-(toNumberJS v)))
  | .andE a b => do
    let va ← evalJ a
    if truthyJS va then evalJ b else .ok va
  | .orE a b => do
    let va ← evalJ a
    if truthyJS va then .ok va else evalJ b
  | .cmpE op a b => do
    let va ← evalJ a
    let vb ← evalJ b
    .ok (.bool (evalCmp op va vb))

/-- Model of `evaluateExpression` (`src/unnamed/part_005` lines 30-82): substitute
the variable context textually, evaluate the resulting JavaScript expression, and
catch every failure as the boolean `false` (the `catch` branch). The TypeScript
function returns the raw evaluation result cast to `boolean`; callers test it for
truthiness, captured by `evalExprTruthy`. -/
def evaluateExpression (expr : String) (ctx : EvaluationContext) : JSValue :=
  match tokenize (substituteVars expr ctx) with
  | .error _ => .bool false
  | .ok toks =>
    match parseJExpr toks with
    | .error _ => .bool false
    | .ok e =>
      match evalJ e with
      | .error _ => .bool false
      | .ok v => v

/-- Truthiness of an evaluated condition, as used by `evaluateLaw`'s `if`s. -/
def evalExprTruthy (expr : String) (ctx : EvaluationContext) : Bool :=
  truthyJS (evaluateExpression expr ctx)

/-- Result record of `evaluateLaw`. -/
structure EvalResult where
  triage : TriageOutcome
  actions : List LawAction
deriving DecidableEq, Repr

/-- Model of `evaluateLaw` (`src/unnamed/part_005` lines 89-124): evaluate the
three conditions in the fixed order ok, doubt, not; the first truthy condition
returns its branch; if none is truthy, fail closed to `doubt` with the built-in
default actions. -/
def evaluateLaw (law : LawDefinition) (ctx : EvaluationContext) : Option EvalResult :=
  if evalExprTruthy law.triage.ok.condition ctx then
    some { triage := .ok, actions := law.triage.ok.actions }
  else if evalExprTruthy law.triage.doubt.condition ctx then
    some { triage := .doubt, actions := law.triage.doubt.actions }
  else if evalExprTruthy law.triage.not.condition ctx then
    some { triage := .not, actions := law.triage.not.actions }
  else
    some { triage := .doubt,
           actions := [.hold 24, .notify "ops", .append_ledger] }

/-! ## Action composition (`composeActions`, `src/unnamed/part_005` lines 138-213) -/

/-- Layer precedence order scanned by `composeActions`, highest first. -/
def layerOrder : List PolicyLayer :=
  [.constitution, .superior, .app_regulatory, .tenant, .user]

/-- Predicate for `terminate` actions. -/
def isTerminateA : LawAction → Bool
  | .terminate _ => true
  | _ => false

/-- Predicate for `accept` actions. -/
def isAcceptA : LawAction → Bool
  | .accept => true
  | _ => false

/-- Predicate for `hold` actions. -/
def isHoldA : LawAction → Bool
  | .hold _ => true
  | _ => false

/-- An action in the state-transition class (`terminate`/`accept`/`hold`). -/
def isStateTransition (a : LawAction) : Bool :=
  isTerminateA a || isAcceptA a || isHoldA a

/-- One iteration of the state-transition loop of `composeActions`: find the
layer's `terminate`/`accept`/`hold` proposals and adopt the strongest, but only
while no transition was adopted from an earlier (higher-precedence) layer. -/
def findTransStep (actions : List LawAction) (st : Option LawAction) : Option LawAction :=
  let t := actions.find? isTerminateA
  let ac := actions.find? isAcceptA
  let h := actions.find? isHoldA
  if t.isSome && st.isNone then t
  else if ac.isSome && st.isNone then ac
  else if h.isSome && st.isNone then h
  else st

/-- The composed state transition: fold the per-layer step over the layers in
precedence order. The input map is modelled by its lookup function
(`actionsByLayer.get(layer) || []`). -/
def stateTransitionOf (m : PolicyLayer → List LawAction) : Option LawAction :=
  layerOrder.foldl (fun st layer => findTransStep (m layer) st) none

/-- Collect `tag` side effects across layers: key collisions keep the value of
the first (highest-precedence) occurrence, in JavaScript `Map` insertion order. -/
def collectTags (m : PolicyLayer → List LawAction) : List (String × String) :=
  layerOrder.foldl
    (fun acc layer =>
      (m layer).foldl
        (fun acc a =>
          match a with
          | .tag k v => if acc.any (fun kv => kv.1 == k) then acc else acc ++ [(k, v)]
          | _ => acc)
        acc)
    []

/-- Collect `notify` roles as a deduplicated insertion-ordered set. -/
def collectNotify (m : PolicyLayer → List LawAction) : List String :=
  layerOrder.foldl
    (fun acc layer =>
      (m layer).foldl
        (fun acc a =>
          match a with
          | .notify r => if acc.contains r then acc else acc ++ [r]
          | _ => acc)
        acc)
    []

/-- Collect `emit` events as a deduplicated insertion-ordered set. -/
def collectEmit (m : PolicyLayer → List LawAction) : List String :=
  layerOrder.foldl
    (fun acc layer =>
      (m layer).foldl
        (fun acc a =>
          match a with
          | .emit e => if acc.contains e then acc else acc ++ [e]
          | _ => acc)
        acc)
    []

/-- Model of `composeActions`: the winning state transition (if any), then the
`tag`, `notify` and `emit` side effects, then exactly one final `append_ledger`,
pushed in the source's order. -/
def composeActions (m : PolicyLayer → List LawAction) : List LawAction :=
  (match stateTransitionOf m with
   | some a => [a]
   | none => [])
  ++ (collectTags m).map (fun kv => LawAction.tag kv.1 kv.2)
  ++ (collectNotify m).map (fun r => LawAction.notify r)
  ++ (collectEmit m).map (fun e => LawAction.emit e)
  ++ [LawAction.append_ledger]

/-! ## Obligation rendering (`actionToObligation`, `src/unnamed/part_005` lines 220-239) -/

/-- Canonical obligation characters of an action (template interpolation). -/
def obligationChars : LawAction → List Char
  | .accept => "accept".data
  | .hold hours => "hold(hours=".data ++ natToDigits hours ++ [')']
  | .terminate reason => "terminate(reason=".data ++ reason.data ++ [')']
  | .notify role => "notify(role=".data ++ role.data ++ [')']
  | .tag key val => "tag(key=".data ++ key.data ++ ",val=".data ++ val.data ++ [')']
  | .append_ledger => "append_ledger".data
  | .emit event => "emit(event=".data ++ event.data ++ [')']

/-- Model of `actionToObligation`: render each action type to its fixed
canonical string. -/
def actionToObligation (a : LawAction) : String :=
  String.mk (obligationChars a)

/-! ## Action-list parsing (`parseActions`, `src/lib/governance/law-parser.ts`
lines 117-159) -/

/-- Matcher for `/hold\(hours=(\d+)\)/` at the current position: the literal,
one or more digits (greedy; a digit is never `)`), then `)`; trailing characters
are unconstrained because the pattern is unanchored. -/
def tryHold (l : List Char) : Option Nat :=
  match stripLit "hold(hours=".data l with
  | none => none
  | some r =>
    let ds := r.takeWhile Char.isDigit
    if ds = [] then none
    else
      match r.dropWhile Char.isDigit with
      | ')' :: _ => some (digitsVal ds)
      | _ => none

/-- Matcher for a `name(field=(\w+))` pattern at the current position: the given
literal prefix, one or more word characters, then `)`. -/
def tryWordArg (pre : List Char) (l : List Char) : Option (List Char) :=
  match stripLit pre l with
  | none => none
  | some r =>
    let ws := r.takeWhile wordCharB
    if ws = [] then none
    else
      match r.dropWhile wordCharB with
      | ')' :: _ => some ws
      | _ => none

/-- Matcher for `/tag\(key=(\w+),val=(\w+)\)/` at the current position. -/
def tryTag (l : List Char) : Option (List Char × List Char) :=
  match stripLit "tag(key=".data l with
  | none => none
  | some r =>
    let k := r.takeWhile wordCharB
    if k = [] then none
    else
      match stripLit ",val=".data (r.dropWhile wordCharB) with
      | none => none
      | some r2 =>
        let v := r2.takeWhile wordCharB
        if v = [] then none
        else
          match r2.dropWhile wordCharB with
          | ')' :: _ => some (k, v)
          | _ => none

/-- Parse one comma-separated part of an action list: the source's
`if`/`else if` cascade over `startsWith` guards, each guard followed by an
unanchored regular-expression match; a failed match or unrecognized token
contributes nothing. -/
def partAction (p : List Char) : List LawAction :=
  if p = "accept".data then [.accept]
  else if p = "append_ledger".data then [.append_ledger]
  else if isPrefixChars "hold(".data p then
    match searchM tryHold p with
    | some n => [.hold n]
    | none => []
  else if isPrefixChars "terminate(".data p then
    match searchM (tryWordArg "terminate(reason=".data) p with
    | some w => [.terminate (String.mk w)]
    | none => []
  else if isPrefixChars "notify(".data p then
    match searchM (tryWordArg "notify(role=".data) p with
    | some w => [.notify (String.mk w)]
    | none => []
  else if isPrefixChars "tag(".data p then
    match searchM tryTag p with
    | some kv => [.tag (String.mk kv.1) (String.mk kv.2)]
    | none => []
  else if isPrefixChars "emit(".data p then
    match searchM (tryWordArg "emit(event=".data) p with
    | some w => [.emit (String.mk w)]
    | none => []
  else []

/-- Model of `parseActions`: split on `","`, trim each part, and parse each part
with the recogniser cascade, in order. -/
def parseActions (s : String) : List LawAction :=
  ((splitOnChar ',' s.data).map (fun part => partAction (jsTrim part))).flatten

/-! ## Law-file parsing (`parseLawFile`, `src/lib/governance/law-parser.ts`
lines 23-108) -/

/-- Preprocessed lines of a law file: split on newlines, trim, drop blank lines
and `#` comments. -/
def lawLines (lawText : String) : List (List Char) :=
  ((splitOnChar '\n' lawText.data).map jsTrim).filter
    (fun l => decide (l ≠ []) && !isPrefixChars "#".data l)

/-- Matcher for the anchored header `/^law\s+([\w_-]+):([\d.]+):$/`. -/
def matchLawHeader (l : List Char) : Option (String × String) :=
  match stripLit "law".data l with
  | none => none
  | some r =>
    match r with
    | [] => none
    | c :: _ =>
      if !isJsSpace c then none
      else
        let r1 := r.dropWhile isJsSpace
        let name := r1.takeWhile (fun c => wordCharB c || c == '-')
        if name = [] then none
        else
          match r1.dropWhile (fun c => wordCharB c || c == '-') with
          | ':' :: r2 =>
            let ver := r2.takeWhile (fun c => c.isDigit || c == '.')
            if ver = [] then none
            else
              match r2.dropWhile (fun c => c.isDigit || c == '.') with
              | [':'] => some (String.mk name, String.mk ver)
              | _ => none
          | _ => none

/-- Branches of a triage block. -/
inductive TriBranch
  | ok
  | doubt
  | not
deriving DecidableEq, Repr

/-- Mutable state of the `parseTriageBlocks` loop (`expectingCondition` is
assigned in the source but never read; it is carried for fidelity). -/
structure TriState where
  okC : List Char
  okA : List LawAction
  doubtC : List Char
  doubtA : List LawAction
  notC : List Char
  notA : List LawAction
  currentBlock : Option TriBranch
  expectingCondition : Bool
  expectingActions : Bool

/-- One line of the `parseTriageBlocks` loop. -/
def triStep (st : TriState) (line : List Char) : TriState :=
  if isPrefixChars "if ok:".data line then
    { st with okC := jsTrim (removeFirst "if ok:".data line),
              currentBlock := some .ok, expectingCondition := false,
              expectingActions := true }
  else if isPrefixChars "if doubt:".data line then
    { st with doubtC := jsTrim (removeFirst "if doubt:".data line),
              currentBlock := some .doubt, expectingCondition := false,
              expectingActions := true }
  else if isPrefixChars "if not:".data line then
    { st with notC := jsTrim (removeFirst "if not:".data line),
              currentBlock := some .not, expectingCondition := false,
              expectingActions := true }
  else if isPrefixChars "then:".data line && st.currentBlock.isSome
      && st.expectingActions then
    let acts := parseActions (String.mk (jsTrim (removeFirst "then:".data line)))
    match st.currentBlock with
    | some .ok => { st with okA := acts, expectingActions := false }
    | some .doubt => { st with doubtA := acts, expectingActions := false }
    | some .not => { st with notA := acts, expectingActions := false }
    | none => st
  else st

/-- Model of `parseTriageBlocks`: a fold of `triStep` from the empty blocks;
it never fails, whatever the lines look like. -/
def parseTriageBlocks (lines : List (List Char)) : Triage :=
  let st := lines.foldl triStep
    { okC := [], okA := [], doubtC := [], doubtA := [], notC := [], notA := [],
      currentBlock := none, expectingCondition := false, expectingActions := false }
  { ok := { condition := String.mk st.okC, actions := st.okA },
    doubt := { condition := String.mk st.doubtC, actions := st.doubtA },
    not := { condition := String.mk st.notC, actions := st.notA } }

/-- Model of `parseLawFile`: preprocess lines, require a nonempty file, a
matching header, a first `scope:` line and a first `clock:` line, then parse the
triage blocks (which cannot fail). -/
def parseLawFile (lawText : String) : Except String LawDefinition :=
  let lines := lawLines lawText
  match lines with
  | [] => .error "Empty law file"
  | l0 :: _ =>
    match matchLawHeader l0 with
    | none => .error ("Invalid law header: " ++ String.mk l0)
    | some nv =>
      match lines.find? (fun l => isPrefixChars "scope:".data l) with
      | none => .error "Missing scope declaration"
      | some scopeLine =>
        match lines.find? (fun l => isPrefixChars "clock:".data l) with
        | none => .error "Missing clock declaration"
        | some clockLine =>
          .ok { id := nv.1 ++ ":" ++ nv.2,
                version := nv.2,
                scope := String.mk (jsTrim (removeFirst "scope:".data scopeLine)),
                clock := String.mk (jsTrim (removeFirst "clock:".data clockLine)),
                triage := parseTriageBlocks lines,
                hash := none }

/-! ## Span validation (`validateGovernableSpan`, `src/lib/governance/metrics.ts`
lines 441-472) -/

/-- JavaScript truthiness of an optional string field: absent and the empty
string are falsy. -/
def truthyOptStr : Option String → Bool
  | none => false
  | some s => !(s == "")

/-- Model of `validateGovernableSpan`: collect every violated invariant, in
the source's order, and fail with one aggregate error when any was violated. -/
def validateGovernableSpan (span : GovernableSpan) : Except String Unit :=
  let errors :=
    (if !truthyOptStr span.tenant_id then ["Missing REQUIRED field: tenant_id"] else [])
    ++ (if !truthyOptStr span.app then ["Missing REQUIRED field: app"] else [])
    ++ (if !truthyOptStr (span.resource.map (fun r => r.type)) then
          ["Missing REQUIRED field: resource.type"] else [])
    ++ (if !truthyOptStr (span.resource.map (fun r => r.id)) then
          ["Missing REQUIRED field: resource.id"] else [])
    ++ (if !truthyOptStr (span.who.bind (fun w => w.id)) then
          ["Missing REQUIRED field: who.id (§9 who_required)"] else [])
    ++ (if !truthyOptStr (span.who.bind (fun w => w.role)) then
          ["Missing REQUIRED field: who.role (§9 who_required)"] else [])
    ++ (if !truthyOptStr (span.clock.bind (fun c => c.ts)) then
          ["Missing REQUIRED field: clock.ts (§9 clock_present)"] else [])
    ++ (if !truthyOptStr (span.clock.bind (fun c => c.tz)) then
          ["Missing REQUIRED field: clock.tz (§9 clock_present)"] else [])
    ++ (if !truthyOptStr span.trace_id then
          ["Missing REQUIRED field: trace_id (§13)"] else [])
    ++ (if !truthyOptStr span.idempotency_key then
          ["Missing REQUIRED field: idempotency_key (§13)"] else [])
    ++ (if (span.resource.map (fun r => r.type)) == some "deliverable"
           && !truthyOptStr (span.resource.bind (fun r => r.deadline_at)) then
          ["For deliverable scope, deadline_at is MUST (§4.1)"] else [])
  if errors = [] then .ok ()
  else .error ("Invalid GovernableSpan:\n" ++ String.intercalate "\n" errors)

/-! ## Next-midnight computation (`getNextMidnight`, `src/lib/governance/metrics.ts`
lines 515-533)

The source formats the current date in the TARGET timezone with
`Intl.DateTimeFormat(..., { timeZone })`, then builds
`new Date(year, month - 1, day + 1, 0, 0, 0, 0)` — a constructor that interprets
its arguments in the HOST machine's local timezone. Host and target zones are
modelled by their UTC offsets in minutes (exact for fixed-offset zones such as
UTC and Asia/Tokyo); `Intl` date extraction is the civil date of
`now + tzOffset`, and the `Date` constructor (which normalises `day + 1` past
the end of month) pins the civil datetime at the host offset. -/

/-- Model of `getNextMidnight(timezone)` called at instant `nowMs` with the
given host-zone and target-zone UTC offsets. -/
def getNextMidnight (hostOffMin tzOffMin nowMs : Int) : Int :=
  let localDays := (nowMs + tzOffMin * 60000).fdiv 86400000
  let ymd := daysToCivil localDays
  civilToDays ymd.1 ymd.2.1 (ymd.2.2 + 1) * 86400000 - hostOffMin * 60000

/-- Local wall-clock time of day (in milliseconds) of an instant in a zone with
the given UTC offset; it is `0` exactly at local midnight. -/
def localTimeOfDayMs (offMin tMs : Int) : Int :=
  (tMs + offMin * 60000).emod 86400000

/-! ## Midnight Ruler run (`executeMidnightRun`/`processSpan`,
`src/lib/governance/midnight-ruler.ts` lines 119-202)

Randomly generated identifiers (UUIDs of the decision span and idempotency key)
and wall-clock event timestamps are environment input, not governed data; ledger
events are modelled by their governed content. `checkIdempotency` is the source's
stub returning `false` and `appendToLedger`/`storeDecisionSpan` record events. -/

/-- Model of `checkClockDrift` (`metrics.ts` line 541-545): the source returns 0. -/
def checkClockDrift : Int := 0

/-- Scheduler configuration (`MidnightRulerConfig`), after the constructor
applied the `?? 500` default to the drift threshold. -/
structure MidnightRulerConfig where
  timezone : String
  tenant_id : String
  quorum : Int
  laws : List LawDefinition
  clock_drift_threshold_ms : Int
deriving Repr

/-- Observable outcome entries of one scheduler run: incident ledger events,
per-action ledger events, and stored decision spans, in emission order. -/
inductive RunEvent
  | incident (etype : String) (span_id : Option String) (message : String)
  | actionEvent (span_id : String) (what : String) (why : String)
  | decisionStored (span_id : String) (law_targets : List String)
      (triage : TriageOutcome) (obligations : List String)
deriving DecidableEq, Repr

/-- Model of `buildEvaluationContext` (`src/unnamed/part_005` lines 246-259);
it reads `span.clock.ts`, `span.resource`, `span.id`, `span.trace_id` and does
not set `user`. The TypeScript signature takes a fully-populated span (the
scheduler validates first); absent optional fields default to empty here. -/
def buildEvaluationContext (span : GovernableSpan) (tenantConfig : TenantCfg) :
    EvaluationContext :=
  { now := (span.clock.bind (fun c => c.ts)).getD "",
    tenant := tenantConfig,
    user := none,
    resource := span.resource.getD ⟨"", "", none, none, none, none⟩,
    span := { id := span.id, trace_id := span.trace_id.getD "" } }

/-- The `action.type` tag string of an action. -/
def actionTypeName : LawAction → String
  | .accept => "accept"
  | .hold _ => "hold"
  | .terminate _ => "terminate"
  | .notify _ => "notify"
  | .tag _ _ => "tag"
  | .append_ledger => "append_ledger"
  | .emit _ => "emit"

/-- The `why` of an action's ledger event: `action.reason || action.type`. -/
def actionWhy (a : LawAction) : String :=
  match a with
  | .terminate r => if r == "" then actionTypeName a else r
  | _ => actionTypeName a

/-- Events emitted by `executeDecision` for one decided span: one ledger event
per action in constitutional order, then the stored decision span whose
obligations render the actions canonically. -/
def executeDecisionEvents (span : GovernableSpan) (law : LawDefinition)
    (triage : TriageOutcome) (actions : List LawAction) : List RunEvent :=
  let resType := (span.resource.map (fun r => r.type)).getD ""
  actions.map (fun a =>
    RunEvent.actionEvent span.id (resType ++ "." ++ actionTypeName a) (actionWhy a))
  ++ [RunEvent.decisionStored span.id [law.id] triage (actions.map actionToObligation)]

/-- The law loop of `processSpan`: evaluate candidate laws in supplied order and
execute the first law yielding a result. -/
def processLaws (span : GovernableSpan) (ctx : EvaluationContext) :
    List LawDefinition → List RunEvent
  | [] => []
  | law :: rest =>
    match evaluateLaw law ctx with
    | some r => executeDecisionEvents span law r.triage r.actions
    | none => processLaws span ctx rest

/-- Model of `processSpan`: the whole body runs inside `try`/`catch`; a
validation failure is caught and recorded as a `poison_input` incident for this
span alone. -/
def processSpanEvents (cfg : MidnightRulerConfig) (span : GovernableSpan) :
    List RunEvent :=
  match validateGovernableSpan span with
  | .error e => [.incident "poison_input" (some span.id) e]
  | .ok _ =>
    let ctx := buildEvaluationContext span
      { id := cfg.tenant_id, quorum := cfg.quorum, timezone := cfg.timezone }
    let targetLaws := (span.law.map (fun l => l.targets)).getD []
    let laws := cfg.laws.filter (fun law =>
      targetLaws.contains law.id
        || (law.scope == (span.resource.map (fun r => r.type)).getD ""
            && targetLaws.isEmpty))
    processLaws span ctx laws

/-- Model of `executeMidnightRun` over the fetched spans: check clock drift
against the threshold (aborting the whole run on excess), then process each
span in order, concatenating the emitted events. -/
def executeMidnightRun (cfg : MidnightRulerConfig) (spans : List GovernableSpan) :
    List RunEvent :=
  if checkClockDrift > cfg.clock_drift_threshold_ms then
    [.incident "clock_drift" none
      ("Clock drift " ++ String.mk (intReprChars checkClockDrift)
        ++ "ms exceeds threshold "
        ++ String.mk (intReprChars cfg.clock_drift_threshold_ms) ++ "ms")]
  else
    (spans.map (processSpanEvents cfg)).flatten

/-! ## Helper predicates and concrete instances referenced by the theorems -/

/-- Header acceptance of the preprocessed lines: non-empty and the first line
matches the anchored header pattern. -/
def headerOkB (lines : List (List Char)) : Bool :=
  match lines with
  | [] => false
  | l0 :: _ => (matchLawHeader l0).isSome

/-- A non-empty string of word characters. -/
def isWordStr (s : String) : Bool :=
  !s.data.isEmpty && s.data.all wordCharB

/-- Actions whose canonical obligation string survives the comma-splitting
action parser: every type except `tag` (whose rendering contains a comma),
with word-character string fields. -/
def roundTrippable : LawAction → Bool
  | .accept => true
  | .append_ledger => true
  | .hold _ => true
  | .terminate r => isWordStr r
  | .notify r => isWordStr r
  | .emit e => isWordStr e
  | .tag _ _ => false

/-- Evaluation context with an unset `deadline_at` (C4's failing input). -/
def ctxC4 : EvaluationContext :=
  { now := "2024-01-01T00:00:00Z",
    tenant := { id := "t1", quorum := 2, timezone := "UTC" },
    user := none,
    resource := { type := "deliverable", id := "r1", deadline_at := none,
                  accepted := none, approvals := none, evidence := none },
    span := { id := "s1", trace_id := "tr1" } }

/-- A law whose three conditions are all the literal `false`. -/
def lawC1 : LawDefinition :=
  { id := "noop:1.0", version := "1.0", scope := "deliverable", clock := "midnight UTC",
    triage := { ok := { condition := "false", actions := [.accept] },
                doubt := { condition := "false", actions := [] },
                not := { condition := "false", actions := [] } },
    hash := none }

/-- A minimal evaluation context. -/
def ctxC1 : EvaluationContext :=
  { now := "", tenant := { id := "t", quorum := 0, timezone := "UTC" },
    user := none,
    resource := { type := "", id := "", deadline_at := none, accepted := none,
                  approvals := none, evidence := none },
    span := { id := "", trace_id := "" } }

/-- Layer map proposing `hold` at CONSTITUTION and `terminate` at USER. -/
def c3m1 : PolicyLayer → List LawAction := fun l =>
  match l with
  | .constitution => [.hold 24]
  | .user => [.terminate "x"]
  | _ => []

/-- Layer map proposing a transition only at USER. -/
def c3m2 : PolicyLayer → List LawAction := fun l =>
  match l with
  | .user => [.terminate "x"]
  | _ => []

/-- Law text in which the `if ok:` condition line has no following `then:` line
(the `then:` after `if doubt:` belongs to the doubt block). -/
def c7Text : String :=
  "law a:1.0:\nscope: x\nclock: y\nif ok: true\nif doubt: false\nthen: accept\nif not: false\nthen: accept"

/-- Law text with two `scope:` lines and two `clock:` lines. -/
def c9DupText : String :=
  "law a:1.0:\nscope: first\nscope: second\nclock: c1\nclock: c2"

/-- The parsed duplicate-header law (used to name the parse result). -/
def c9Parsed : LawDefinition :=
  (parseLawFile c9DupText).toOption.getD
    ⟨"", "", "", "", ⟨⟨"", []⟩, ⟨"", []⟩, ⟨"", []⟩⟩, none⟩

/-- Span violating exactly `who.role` and `clock.tz` (C8's failing span). -/
def spanC8Bad : GovernableSpan :=
  { id := "s-c8-bad", tenant_id := some "t", app := some "a",
    resource := some ⟨"contract", "r1", none, none, none, none⟩,
    who := some ⟨some "u", none⟩,
    clock := some ⟨some "2024-01-01T00:00:00Z", none⟩,
    trace_id := some "tr", idempotency_key := some "ik", law := none }

/-- Span satisfying every constitutional invariant. -/
def spanC8Good : GovernableSpan :=
  { id := "s-c8-good", tenant_id := some "t", app := some "a",
    resource := some ⟨"contract", "r1", none, none, none, none⟩,
    who := some ⟨some "u", some "admin"⟩,
    clock := some ⟨some "2024-01-01T00:00:00Z", some "UTC"⟩,
    trace_id := some "tr", idempotency_key := some "ik", law := none }

/-- A deliverable law with a trivially true `ok` branch. -/
def law6 : LawDefinition :=
  { id := "deadline:1.0", version := "1.0", scope := "deliverable",
    clock := "midnight UTC",
    triage := { ok := { condition := "true", actions := [.accept, .append_ledger] },
                doubt := { condition := "false", actions := [] },
                not := { condition := "false", actions := [] } },
    hash := none }

/-- Scheduler configuration with one law and the default drift threshold. -/
def cfg6 : MidnightRulerConfig :=
  { timezone := "UTC", tenant_id := "t1", quorum := 2, laws := [law6],
    clock_drift_threshold_ms := 500 }

/-- Span failing validation (missing `tenant_id`). -/
def spanBad6 : GovernableSpan :=
  { id := "bad1", tenant_id := none, app := some "a",
    resource := some ⟨"deliverable", "r1", some "2024-01-02T00:00:00Z", none, none, none⟩,
    who := some ⟨some "u", some "admin"⟩,
    clock := some ⟨some "2024-01-01T00:00:00Z", some "UTC"⟩,
    trace_id := some "tr1", idempotency_key := some "ik1", law := none }

/-- Valid deliverable span processed in the same run as `spanBad6`. -/
def spanGood6 : GovernableSpan :=
  { id := "good1", tenant_id := some "t1", app := some "a",
    resource := some ⟨"deliverable", "r2", some "2024-01-02T00:00:00Z", none, none, none⟩,
    who := some ⟨some "u", some "admin"⟩,
    clock := some ⟨some "2024-01-01T00:00:00Z", some "UTC"⟩,
    trace_id := some "tr2", idempotency_key := some "ik2", law := none }

/-! ## Theorems -/

/-- A state transition adopted from an earlier layer is never displaced. -/
theorem findTransStep_some (acts : List LawAction) (a : LawAction) :
    findTransStep acts (some a) = some a := by
  simp [findTransStep]

/-- Folding further layers never displaces an adopted transition. -/
theorem foldTrans_some (m : PolicyLayer → List LawAction) (layers : List PolicyLayer)
    (a : LawAction) :
    layers.foldl (fun st layer => findTransStep (m layer) st) (some a) = some a := by
  induction layers with
  | nil => rfl
  | cons L ls ih => simp [List.foldl_cons, findTransStep_some, ih]

/-- Whatever `findTransStep` adopts is a state transition (given the incoming
accumulator only held transitions). -/
theorem findTransStep_isTransition (acts : List LawAction) (st : Option LawAction)
    (h : ∀ b, st = some b → isStateTransition b = true) :
    ∀ b, findTransStep acts st = some b → isStateTransition b = true := by
  intro b hb
  simp only [findTransStep] at hb
  split at hb
  · have := List.find?_some hb
    simp [isStateTransition, this]
  · split at hb
    · have := List.find?_some hb
      simp [isStateTransition, this]
    · split at hb
      · have := List.find?_some hb
        simp [isStateTransition, this]
      · exact h b hb

/-- The composed state transition, when present, is a transition action. -/
theorem stateTransitionOf_isTransition (m : PolicyLayer → List LawAction) :
    ∀ a, stateTransitionOf m = some a → isStateTransition a = true := by
  have key : ∀ (layers : List PolicyLayer) (st : Option LawAction),
      (∀ b, st = some b → isStateTransition b = true) →
      ∀ a, layers.foldl (fun st layer => findTransStep (m layer) st) st = some a →
      isStateTransition a = true := by
    intro layers
    induction layers with
    | nil => intro st h a ha; exact h a ha
    | cons L ls ih =>
      intro st h a ha
      exact ih (findTransStep (m L) st) (findTransStep_isTransition (m L) st h) a ha
  intro a ha
  exact key layerOrder none (by intro b hb; cases hb) a ha

/-- C2: for every input map of actions by layer, `composeActions` returns a list
containing the action `append_ledger` exactly once, as its last element. -/
theorem composeActions_append_ledger_once_last (m : PolicyLayer → List LawAction) :
    (composeActions m).count LawAction.append_ledger = 1 ∧
    ∃ pre, composeActions m = pre ++ [LawAction.append_ledger] ∧
      LawAction.append_ledger ∉ pre := by
  have hpre : composeActions m =
      ((match stateTransitionOf m with
        | some a => [a]
        | none => ([] : List LawAction))
        ++ ((collectTags m).map (fun kv => LawAction.tag kv.1 kv.2)
        ++ ((collectNotify m).map (fun r => LawAction.notify r)
        ++ (collectEmit m).map (fun e => LawAction.emit e))))
      ++ [LawAction.append_ledger] := by
    simp [composeActions, List.append_assoc]
  have hnot : LawAction.append_ledger ∉
      ((match stateTransitionOf m with
        | some a => [a]
        | none => ([] : List LawAction))
        ++ ((collectTags m).map (fun kv => LawAction.tag kv.1 kv.2)
        ++ ((collectNotify m).map (fun r => LawAction.notify r)
        ++ (collectEmit m).map (fun e => LawAction.emit e)))) := by
    intro hmem
    rcases List.mem_append.1 hmem with hst | hside
    · rcases hq : stateTransitionOf m with _ | a
      · rw [hq] at hst
        simp at hst
      · rw [hq] at hst
        simp at hst
        have := stateTransitionOf_isTransition m a hq
        rw [← hst] at this
        simp [isStateTransition, isTerminateA, isAcceptA, isHoldA] at this
    · rcases List.mem_append.1 hside with h1 | h23
      · rcases List.mem_map.1 h1 with ⟨kv, _, hkv⟩
        cases hkv
      · rcases List.mem_append.1 h23 with h2 | h3
        · rcases List.mem_map.1 h2 with ⟨r, _, hr⟩
          cases hr
        · rcases List.mem_map.1 h3 with ⟨e, _, he⟩
          cases he
  refine ⟨?_, _, hpre, hnot⟩
  rw [hpre, List.count_append]
  rw [List.count_eq_zero.2 hnot]
  rfl

/-- C1: `evaluateLaw` is total (it never returns `null`: the model always
returns `some`), and when none of the three conditions — evaluated in the fixed
order ok, doubt, not — is truthy, it fails closed to `doubt` with exactly the
built-in actions `hold(hours=24)`, `notify(role=ops)`, `append_ledger`. -/
theorem evaluateLaw_never_null_and_fail_closed (law : LawDefinition)
    (ctx : EvaluationContext) :
    (evaluateLaw law ctx).isSome = true ∧
    (evalExprTruthy law.triage.ok.condition ctx = false →
     evalExprTruthy law.triage.doubt.condition ctx = false →
     evalExprTruthy law.triage.not.condition ctx = false →
     evaluateLaw law ctx =
       some { triage := TriageOutcome.doubt,
              actions := [LawAction.hold 24, LawAction.notify "ops",
                          LawAction.append_ledger] }) := by
  constructor
  · by_cases h1 : evalExprTruthy law.triage.ok.condition ctx
      <;> by_cases h2 : evalExprTruthy law.triage.doubt.condition ctx
      <;> by_cases h3 : evalExprTruthy law.triage.not.condition ctx
      <;> simp [evaluateLaw, h1, h2, h3]
  · intro h1 h2 h3
    simp [evaluateLaw, h1, h2, h3]

/-- Witness for C1: a law whose three conditions are the literal `false`
reaches the fail-closed default disposition. -/
theorem evaluateLaw_never_null_and_fail_closed_witness :
    evalExprTruthy lawC1.triage.ok.condition ctxC1 = false ∧
    evaluateLaw lawC1 ctxC1 =
      some { triage := TriageOutcome.doubt,
             actions := [LawAction.hold 24, LawAction.notify "ops",
                         LawAction.append_ledger] } :=
  ⟨by decide, (evaluateLaw_never_null_and_fail_closed lawC1 ctxC1).2
    (by decide) (by decide) (by decide)⟩

/-- C4 (code bug): with `deadline_at` unset, the variable does substitute as
`null` — but the JavaScript relational comparison `now >= null` coerces `null`
to `0` and evaluates to `true`, not `false`, contradicting the source's own
`§5.1` comment that mismatched-type comparisons must be false. -/
theorem evaluateExpression_null_comparison_not_false :
    String.mk (substituteVars "now >= deadline_at" ctxC4) = "1704067200000 >= null" ∧
    evaluateExpression "now >= deadline_at" ctxC4 = JSValue.bool true ∧
    evalExprTruthy "now >= deadline_at" ctxC4 = true :=
  ⟨by decide, by decide, by decide⟩

/-- C5 (code bug): with a UTC host and target zone Asia/Tokyo (UTC+9), called at
2024-01-01T16:00:00Z (Tokyo 01:00), `getNextMidnight` returns
2024-01-03T00:00:00Z — an instant whose Tokyo wall-clock time is 09:00:00, not
a local midnight — and skips the genuine next Tokyo midnight
2024-01-02T15:00:00Z, because `new Date(y, m-1, d+1)` interprets the extracted
target-zone date in the host zone. -/
theorem getNextMidnight_wrong_zone :
    getNextMidnight 0 540 1704124800000 = 1704240000000 ∧
    localTimeOfDayMs 540 (getNextMidnight 0 540 1704124800000) = 32400000 ∧
    (32400000 : Int) ≠ 0 ∧
    localTimeOfDayMs 540 1704207600000 = 0 ∧
    (1704124800000 : Int) < 1704207600000 ∧
    (1704207600000 : Int) < 1704240000000 := by
  refine ⟨by decide, by decide, by decide, by decide, by decide, by decide⟩

/-- C8: `validateGovernableSpan` aggregates every violated invariant into one
error. For a span violating exactly `who.role` and `clock.tz` it raises a single
error naming both violations, and for a span satisfying every invariant it
raises nothing. -/
theorem validateGovernableSpan_aggregates (span : GovernableSpan) :
    (truthyOptStr span.tenant_id = true →
     truthyOptStr span.app = true →
     truthyOptStr (span.resource.map (fun r => r.type)) = true →
     truthyOptStr (span.resource.map (fun r => r.id)) = true →
     truthyOptStr (span.who.bind (fun w => w.id)) = true →
     truthyOptStr (span.who.bind (fun w => w.role)) = false →
     truthyOptStr (span.clock.bind (fun c => c.ts)) = true →
     truthyOptStr (span.clock.bind (fun c => c.tz)) = false →
     truthyOptStr span.trace_id = true →
     truthyOptStr span.idempotency_key = true →
     ((span.resource.map (fun r => r.type)) == some "deliverable"
        && !truthyOptStr (span.resource.bind (fun r => r.deadline_at))) = false →
     validateGovernableSpan span =
       .error ("Invalid GovernableSpan:\nMissing REQUIRED field: who.role (§9 who_required)\nMissing REQUIRED field: clock.tz (§9 clock_present)")) ∧
    (truthyOptStr span.tenant_id = true →
     truthyOptStr span.app = true →
     truthyOptStr (span.resource.map (fun r => r.type)) = true →
     truthyOptStr (span.resource.map (fun r => r.id)) = true →
     truthyOptStr (span.who.bind (fun w => w.id)) = true →
     truthyOptStr (span.who.bind (fun w => w.role)) = true →
     truthyOptStr (span.clock.bind (fun c => c.ts)) = true →
     truthyOptStr (span.clock.bind (fun c => c.tz)) = true →
     truthyOptStr span.trace_id = true →
     truthyOptStr span.idempotency_key = true →
     ((span.resource.map (fun r => r.type)) == some "deliverable"
        && !truthyOptStr (span.resource.bind (fun r => r.deadline_at))) = false →
     validateGovernableSpan span = .ok ()) := by
  constructor
  · intro h1 h2 h3 h4 h5 h6 h7 h8 h9 h10 h11
    simp [validateGovernableSpan, h1, h2, h3, h4, h5, h6, h7, h8, h9, h10, h11]
    rfl
  · intro h1 h2 h3 h4 h5 h6 h7 h8 h9 h10 h11
    simp [validateGovernableSpan, h1, h2, h3, h4, h5, h6, h7, h8, h9, h10, h11]

/-- Witness for C8: the concrete span missing exactly `who.role` and `clock.tz`
raises the one aggregate error naming both, and the fully valid span passes. -/
theorem validateGovernableSpan_aggregates_witness :
    validateGovernableSpan spanC8Bad =
      .error "Invalid GovernableSpan:\nMissing REQUIRED field: who.role (§9 who_required)\nMissing REQUIRED field: clock.tz (§9 clock_present)" ∧
    validateGovernableSpan spanC8Good = .ok () :=
  ⟨(validateGovernableSpan_aggregates spanC8Bad).1 (by decide) (by decide) (by decide)
      (by decide) (by decide) (by decide) (by decide) (by decide) (by decide)
      (by decide) (by decide),
   (validateGovernableSpan_aggregates spanC8Good).2 (by decide) (by decide) (by decide)
      (by decide) (by decide) (by decide) (by decide) (by decide) (by decide)
      (by decide) (by decide)⟩

/-- Decomposition of a list around the element at index `i`. -/
theorem takeGetDrop : ∀ (l : List α) (i : Nat) (h : i < l.length),
    l = l.take i ++ l.get ⟨i, h⟩ :: l.drop (i + 1) := by
  intro l
  induction l with
  | nil => intro i h; simp at h
  | cons a as ih =>
    intro i h
    cases i with
    | zero => simp
    | succ j =>
      have hj : j < as.length := by simpa using h
      have := ih j hj
      calc a :: as = a :: (as.take j ++ as.get ⟨j, hj⟩ :: as.drop (j + 1)) := by
            rw [← this]
        _ = (a :: as).take (j + 1) ++ (a :: as).get ⟨j + 1, h⟩ :: (a :: as).drop (j + 2) := by
            simp

/-- C6: during a scheduler run below the drift threshold, each fetched resource
is processed independently: when validation of the resource at position `i`
fails, the run's event log is exactly the events of the earlier resources, then
a `poison_input` incident for that resource alone, then the events of the later
resources — one bad resource never aborts the run. -/
theorem executeMidnightRun_poison_isolated
    (cfg : MidnightRulerConfig) (spans : List GovernableSpan) (i : Nat)
    (hth : checkClockDrift ≤ cfg.clock_drift_threshold_ms)
    (hi : i < spans.length) (e : String)
    (hv : validateGovernableSpan (spans.get ⟨i, hi⟩) = .error e) :
    executeMidnightRun cfg spans =
      ((spans.take i).map (processSpanEvents cfg)).flatten
      ++ [RunEvent.incident "poison_input" (some (spans.get ⟨i, hi⟩).id) e]
      ++ ((spans.drop (i + 1)).map (processSpanEvents cfg)).flatten := by
  unfold executeMidnightRun
  rw [if_neg (not_lt.2 hth)]
  have hspan : processSpanEvents cfg (spans.get ⟨i, hi⟩) =
      [.incident "poison_input" (some (spans.get ⟨i, hi⟩).id) e] := by
    unfold processSpanEvents
    rw [hv]
  conv_lhs => rw [takeGetDrop spans i hi]
  rw [List.map_append, List.map_cons, List.flatten_append, List.flatten_cons, hspan]
  simp [List.append_assoc]

/-- Witness for C6: in a two-span run where the first span fails validation,
the log holds its `poison_input` incident followed by the full decision events
of the second span, which is still evaluated and decided. -/
theorem executeMidnightRun_poison_isolated_witness :
    validateGovernableSpan spanBad6 =
      .error "Invalid GovernableSpan:\nMissing REQUIRED field: tenant_id" ∧
    executeMidnightRun cfg6 [spanBad6, spanGood6] =
      [RunEvent.incident "poison_input" (some "bad1")
         "Invalid GovernableSpan:\nMissing REQUIRED field: tenant_id",
       RunEvent.actionEvent "good1" "deliverable.accept" "accept",
       RunEvent.actionEvent "good1" "deliverable.append_ledger" "append_ledger",
       RunEvent.decisionStored "good1" ["deadline:1.0"] TriageOutcome.ok
         ["accept", "append_ledger"]] := by
  constructor
  · rfl
  · have h := executeMidnightRun_poison_isolated cfg6 [spanBad6, spanGood6] 0
      (by decide) (by decide)
      "Invalid GovernableSpan:\nMissing REQUIRED field: tenant_id" (by rfl)
    rw [h]
    decide

/-- A `find?` succeeds exactly when `any` holds. -/
theorem find?_isSome_eq_any (p : List Char → Bool) (l : List (List Char)) :
    (l.find? p).isSome = l.any p := by
  induction l with
  | nil => rfl
  | cons a as ih =>
    cases h : p a
    · simp [List.find?_cons, h, ih]
    · simp [List.find?_cons, h]

/-- C7 (amended): `parseLawFile` does not enforce the triage-block structure at
all — `parseTriageBlocks` cannot fail. A law text parses successfully exactly
when the preprocessed lines are nonempty with a matching header and contain at
least one `scope:` line and at least one `clock:` line; missing `then:` lines or
missing triage blocks are accepted, the affected branch keeping an empty
condition or action list. -/
theorem parseLawFile_isOk_iff (text : String) :
    exceptIsOk (parseLawFile text) =
      (headerOkB (lawLines text)
        && (lawLines text).any (fun l => isPrefixChars "scope:".data l)
        && (lawLines text).any (fun l => isPrefixChars "clock:".data l)) := by
  cases hL : lawLines text with
  | nil => simp [parseLawFile, hL, headerOkB, exceptIsOk]
  | cons l0 rest =>
    cases hH : matchLawHeader l0 with
    | none => simp [parseLawFile, hL, hH, headerOkB, exceptIsOk]
    | some nv =>
      cases hS : (l0 :: rest).find? (fun l => isPrefixChars "scope:".data l) with
      | none =>
        have hany : (l0 :: rest).any (fun l => isPrefixChars "scope:".data l) = false := by
          rw [← find?_isSome_eq_any, hS]
          rfl
        simp [parseLawFile, hL, hH, hS, headerOkB, exceptIsOk, hany]
      | some sl =>
        have hanyS : (l0 :: rest).any (fun l => isPrefixChars "scope:".data l) = true := by
          rw [← find?_isSome_eq_any, hS]
          rfl
        cases hC : (l0 :: rest).find? (fun l => isPrefixChars "clock:".data l) with
        | none =>
          have hanyC : (l0 :: rest).any (fun l => isPrefixChars "clock:".data l) = false := by
            rw [← find?_isSome_eq_any, hC]
            rfl
          simp [parseLawFile, hL, hH, hS, hC, headerOkB, exceptIsOk, hanyS, hanyC]
        | some cl =>
          have hanyC : (l0 :: rest).any (fun l => isPrefixChars "clock:".data l) = true := by
            rw [← find?_isSome_eq_any, hC]
            rfl
          simp [parseLawFile, hL, hH, hS, hC, headerOkB, exceptIsOk, hanyS, hanyC]

/-- Counterexample for C7: a law text whose `if ok:` condition line has no
following `then:` line parses successfully (with an empty `ok` action list)
instead of failing. -/
theorem parseLawFile_accepts_missing_then :
    exceptIsOk (parseLawFile c7Text) = true ∧
    (parseLawFile c7Text).toOption.map (fun d => d.triage.ok.actions) = some [] := by
  constructor
  · rfl
  · rfl

/-- C9 (amended): `parseLawFile` requires at least one `scope:` line and at
least one `clock:` line — zero of either is a parse error — but it does not
reject duplicates: any further `scope:`/`clock:` lines are ignored and the first
occurrence of each provides the parsed value. -/
theorem parseLawFile_scope_clock_first (text : String) :
    ((lawLines text) ≠ [] →
     headerOkB (lawLines text) = true →
     (lawLines text).any (fun l => isPrefixChars "scope:".data l) = false →
     parseLawFile text = .error "Missing scope declaration") ∧
    ((lawLines text) ≠ [] →
     headerOkB (lawLines text) = true →
     (lawLines text).any (fun l => isPrefixChars "scope:".data l) = true →
     (lawLines text).any (fun l => isPrefixChars "clock:".data l) = false →
     parseLawFile text = .error "Missing clock declaration") ∧
    (∀ d scopeLine clockLine,
     parseLawFile text = .ok d →
     (lawLines text).find? (fun l => isPrefixChars "scope:".data l) = some scopeLine →
     (lawLines text).find? (fun l => isPrefixChars "clock:".data l) = some clockLine →
     d.scope = String.mk (jsTrim (removeFirst "scope:".data scopeLine)) ∧
     d.clock = String.mk (jsTrim (removeFirst "clock:".data clockLine))) := by
  refine ⟨?_, ?_, ?_⟩
  · intro hne hhead hany
    cases hL : lawLines text with
    | nil => exact absurd hL hne
    | cons l0 rest =>
      rw [hL] at hhead hany
      cases hH : matchLawHeader l0 with
      | none => simp [headerOkB, hH] at hhead
      | some nv =>
        have hS : (l0 :: rest).find? (fun l => isPrefixChars "scope:".data l) = none := by
          have := find?_isSome_eq_any (fun l => isPrefixChars "scope:".data l) (l0 :: rest)
          rw [hany] at this
          exact Option.not_isSome_iff_eq_none.1 (by simp [this])
        simp [parseLawFile, hL, hH, hS]
  · intro hne hhead hanyS hany
    cases hL : lawLines text with
    | nil => exact absurd hL hne
    | cons l0 rest =>
      rw [hL] at hhead hanyS hany
      cases hH : matchLawHeader l0 with
      | none => simp [headerOkB, hH] at hhead
      | some nv =>
        have hC : (l0 :: rest).find? (fun l => isPrefixChars "clock:".data l) = none := by
          have := find?_isSome_eq_any (fun l => isPrefixChars "clock:".data l) (l0 :: rest)
          rw [hany] at this
          exact Option.not_isSome_iff_eq_none.1 (by simp [this])
        cases hS : (l0 :: rest).find? (fun l => isPrefixChars "scope:".data l) with
        | none =>
          have := find?_isSome_eq_any (fun l => isPrefixChars "scope:".data l) (l0 :: rest)
          rw [hS, hanyS] at this
          cases this
        | some sl => simp [parseLawFile, hL, hH, hS, hC]
  · intro d scopeLine clockLine hok hS hC
    cases hL : lawLines text with
    | nil => rw [hL] at hS; cases hS
    | cons l0 rest =>
      rw [hL] at hS hC
      cases hH : matchLawHeader l0 with
      | none => simp [parseLawFile, hL, hH] at hok
      | some nv =>
        simp [parseLawFile, hL, hH, hS, hC] at hok
        rw [← hok]
        exact ⟨rfl, rfl⟩

/-- Counterexample for C9: a law text with two `scope:` lines and two `clock:`
lines parses successfully instead of being rejected. -/
theorem parseLawFile_accepts_duplicate_scope_clock :
    exceptIsOk (parseLawFile c9DupText) = true := by
  rfl

/-- Witness for C9: on the duplicated text, the first `scope:` and first
`clock:` lines win. -/
theorem parseLawFile_scope_clock_first_witness :
    (parseLawFile c9DupText).toOption.map (fun d => (d.scope, d.clock)) =
      some ("first", "c1") := by
  have h := (parseLawFile_scope_clock_first c9DupText).2.2 c9Parsed
    "scope: first".data "clock: c1".data (by rfl) (by rfl) (by rfl)
  rw [show parseLawFile c9DupText = .ok c9Parsed from rfl]
  show some (c9Parsed.scope, c9Parsed.clock) = some ("first", "c1")
  rw [h.1, h.2]
  rfl

/-- An action that is no state transition fails all three class predicates. -/
theorem not_transition_parts {a : LawAction} (h : isStateTransition a = false) :
    isTerminateA a = false ∧ isAcceptA a = false ∧ isHoldA a = false := by
  simp [isStateTransition] at h
  exact ⟨h.1.1, h.1.2, h.2⟩

/-- A layer proposing no state transition leaves the accumulator untouched. -/
theorem findTransStep_none_of_noTrans (acts : List LawAction)
    (h : ∀ a ∈ acts, isStateTransition a = false) :
    findTransStep acts none = none := by
  have hT : acts.find? isTerminateA = none :=
    List.find?_eq_none.2 (fun x hx => by simp [(not_transition_parts (h x hx)).1])
  have hA : acts.find? isAcceptA = none :=
    List.find?_eq_none.2 (fun x hx => by simp [(not_transition_parts (h x hx)).2.1])
  have hH : acts.find? isHoldA = none :=
    List.find?_eq_none.2 (fun x hx => by simp [(not_transition_parts (h x hx)).2.2])
  simp [findTransStep, hT, hA, hH]

/-- Folding layers that propose no transition keeps the accumulator at `none`. -/
theorem foldTrans_none (m : PolicyLayer → List LawAction) :
    ∀ layers : List PolicyLayer,
    (∀ L ∈ layers, ∀ a ∈ m L, isStateTransition a = false) →
    layers.foldl (fun st layer => findTransStep (m layer) st) none = none := by
  intro layers
  induction layers with
  | nil => intro _; rfl
  | cons L ls ih =>
    intro h
    simp only [List.foldl_cons]
    rw [findTransStep_none_of_noTrans (m L) (h L (by simp))]
    exact ih (fun L' hL' a ha => h L' (by simp [hL']) a ha)

/-- What `findTransStep` picks from a layer that does propose a transition:
some proposal of that layer, with `terminate` beating `accept` beating `hold`. -/
theorem findTransStep_none_spec (acts : List LawAction)
    (hex : ∃ a ∈ acts, isStateTransition a = true) :
    ∃ r, findTransStep acts none = some r ∧ r ∈ acts ∧ isStateTransition r = true ∧
      ((∃ a ∈ acts, isTerminateA a = true) → isTerminateA r = true) ∧
      ((∀ a ∈ acts, isTerminateA a = false) →
        (∃ a ∈ acts, isAcceptA a = true) → isAcceptA r = true) ∧
      ((∀ a ∈ acts, isTerminateA a = false) → (∀ a ∈ acts, isAcceptA a = false) →
        (∃ a ∈ acts, isHoldA a = true) → isHoldA r = true) := by
  cases hT : acts.find? isTerminateA with
  | some t =>
    have htT := List.find?_some hT
    refine ⟨t, by simp [findTransStep, hT], List.mem_of_find?_eq_some hT, ?_, ?_, ?_, ?_⟩
    · simp [isStateTransition, htT]
    · intro _; exact htT
    · intro hall _
      rw [hall t (List.mem_of_find?_eq_some hT)] at htT
      cases htT
    · intro hall _ _
      rw [hall t (List.mem_of_find?_eq_some hT)] at htT
      cases htT
  | none =>
    have hTnone : ∀ a ∈ acts, isTerminateA a = false := by
      intro a ha
      simpa using List.find?_eq_none.1 hT a ha
    cases hA : acts.find? isAcceptA with
    | some ac =>
      have haA := List.find?_some hA
      refine ⟨ac, by simp [findTransStep, hT, hA], List.mem_of_find?_eq_some hA, ?_, ?_, ?_, ?_⟩
      · simp [isStateTransition, haA]
      · intro ⟨a, ha, hta⟩
        rw [hTnone a ha] at hta
        cases hta
      · intro _ _; exact haA
      · intro _ hallA _
        rw [hallA ac (List.mem_of_find?_eq_some hA)] at haA
        cases haA
    | none =>
      have hAnone : ∀ a ∈ acts, isAcceptA a = false := by
        intro a ha
        simpa using List.find?_eq_none.1 hA a ha
      cases hH : acts.find? isHoldA with
      | some hd =>
        have hhH := List.find?_some hH
        refine ⟨hd, by simp [findTransStep, hT, hA, hH], List.mem_of_find?_eq_some hH, ?_, ?_, ?_, ?_⟩
        · simp [isStateTransition, hhH]
        · intro ⟨a, ha, hta⟩
          rw [hTnone a ha] at hta
          cases hta
        · intro _ ⟨a, ha, haa⟩
          rw [hAnone a ha] at haa
          cases haa
        · intro _ _ _; exact hhH
      | none =>
        exfalso
        obtain ⟨a, ha, htr⟩ := hex
        have h1 := hTnone a ha
        have h2 := hAnone a ha
        have h3 := by simpa using List.find?_eq_none.1 hH a ha
        simp [isStateTransition, h1, h2, h3] at htr

/-- C3: `composeActions` includes at most one state transition; scanning the
layers in precedence order (constitution down to user), the highest layer that
proposes any transition provides it — placed first in the composed list — and
within that winning layer `terminate` beats `accept` beats `hold`. -/
theorem composeActions_transition_precedence (m : PolicyLayer → List LawAction) :
    (composeActions m).countP isStateTransition ≤ 1 ∧
    ∀ ltop pre post, layerOrder = pre ++ ltop :: post →
      (∀ L ∈ pre, ∀ a ∈ m L, isStateTransition a = false) →
      (∃ a ∈ m ltop, isStateTransition a = true) →
      ∃ r, (composeActions m).head? = some r ∧ r ∈ m ltop ∧
        isStateTransition r = true ∧
        ((∃ a ∈ m ltop, isTerminateA a = true) → isTerminateA r = true) ∧
        ((∀ a ∈ m ltop, isTerminateA a = false) →
          (∃ a ∈ m ltop, isAcceptA a = true) → isAcceptA r = true) ∧
        ((∀ a ∈ m ltop, isTerminateA a = false) →
          (∀ a ∈ m ltop, isAcceptA a = false) →
          (∃ a ∈ m ltop, isHoldA a = true) → isHoldA r = true) := by
  constructor
  · have htags : ((collectTags m).map (fun kv => LawAction.tag kv.1 kv.2)).countP
        isStateTransition = 0 := by
      rw [List.countP_eq_zero]
      intro a ha
      rcases List.mem_map.1 ha with ⟨kv, _, hkv⟩
      simp [← hkv, isStateTransition, isTerminateA, isAcceptA, isHoldA]
    have hnot : ((collectNotify m).map (fun r => LawAction.notify r)).countP
        isStateTransition = 0 := by
      rw [List.countP_eq_zero]
      intro a ha
      rcases List.mem_map.1 ha with ⟨r, _, hr⟩
      simp [← hr, isStateTransition, isTerminateA, isAcceptA, isHoldA]
    have hemt : ((collectEmit m).map (fun e => LawAction.emit e)).countP
        isStateTransition = 0 := by
      rw [List.countP_eq_zero]
      intro a ha
      rcases List.mem_map.1 ha with ⟨e, _, he⟩
      simp [← he, isStateTransition, isTerminateA, isAcceptA, isHoldA]
    have happ : ([LawAction.append_ledger] : List LawAction).countP
        isStateTransition = 0 := by decide
    have hst : (match stateTransitionOf m with
        | some a => [a]
        | none => ([] : List LawAction)).countP isStateTransition ≤ 1 := by
      cases stateTransitionOf m with
      | none => simp
      | some a =>
        have := List.countP_le_length (l := [a]) (p := isStateTransition)
        simpa using this
    calc (composeActions m).countP isStateTransition
        = (match stateTransitionOf m with
           | some a => [a]
           | none => ([] : List LawAction)).countP isStateTransition
          + (((collectTags m).map (fun kv => LawAction.tag kv.1 kv.2)).countP
              isStateTransition
            + (((collectNotify m).map (fun r => LawAction.notify r)).countP
                isStateTransition
              + (((collectEmit m).map (fun e => LawAction.emit e)).countP
                  isStateTransition
                + ([LawAction.append_ledger] : List LawAction).countP
                    isStateTransition))) := by
          simp [composeActions, List.countP_append]
      _ ≤ 1 := by omega
  · intro ltop pre post horder hpre hex
    obtain ⟨r, hr, hmem, htr, c1, c2, c3⟩ := findTransStep_none_spec (m ltop) hex
    have hstEq : stateTransitionOf m = some r := by
      unfold stateTransitionOf
      rw [horder, List.foldl_append, foldTrans_none m pre hpre]
      simp only [List.foldl_cons]
      rw [hr]
      exact foldTrans_some m post r
    refine ⟨r, ?_, hmem, htr, c1, c2, c3⟩
    simp [composeActions, hstEq]

/-- Witness for C3: CONSTITUTION's `hold` beats USER's `terminate`; with no
higher-layer proposal, USER's `terminate` wins. -/
theorem composeActions_transition_precedence_witness :
    (composeActions c3m1).head? = some (LawAction.hold 24) ∧
    (composeActions c3m2).head? = some (LawAction.terminate "x") := by
  constructor
  · obtain ⟨r, hhead, hmem, htr, hc1, hc2, hc3⟩ :=
      (composeActions_transition_precedence c3m1).2 PolicyLayer.constitution []
        [.superior, .app_regulatory, .tenant, .user] rfl (by decide)
        ⟨.hold 24, by simp [c3m1], by decide⟩
    have hr : r = LawAction.hold 24 := by simpa [c3m1] using hmem
    rw [hhead, hr]
  · obtain ⟨r, hhead, hmem, htr, hc1, hc2, hc3⟩ :=
      (composeActions_transition_precedence c3m2).2 PolicyLayer.user
        [.constitution, .superior, .app_regulatory, .tenant] [] rfl (by decide)
        ⟨.terminate "x", by simp [c3m2], by decide⟩
    have hr : r = LawAction.terminate "x" := by simpa [c3m2] using hmem
    rw [hhead, hr]

/-- A digit value below ten renders as a decimal digit character. -/
theorem digitChar_isDigit (d : Nat) (h : d < 10) : (digitChar d).isDigit = true := by
  interval_cases d <;> decide

/-- Numeric value of a rendered digit character. -/
theorem digitChar_toNat (d : Nat) (h : d < 10) : (digitChar d).toNat = 48 + d := by
  interval_cases d <;> decide

/-- Every character of a fueled decimal rendering is a digit. -/
theorem natToDigitsAux_all_digit :
    ∀ fuel n, n < fuel → ∀ c ∈ natToDigitsAux fuel n, c.isDigit = true := by
  intro fuel
  induction fuel with
  | zero => intro n h; omega
  | succ f ih =>
    intro n h c hc
    simp only [natToDigitsAux] at hc
    split at hc
    · rename_i h10
      simp at hc
      rw [hc]
      exact digitChar_isDigit n h10
    · rcases List.mem_append.1 hc with h1 | h2
      · have hdiv : n / 10 < n := Nat.div_lt_self (by omega) (by omega)
        exact ih (n / 10) (by omega) c h1
      · simp at h2
        rw [h2]
        exact digitChar_isDigit (n % 10) (Nat.mod_lt _ (by omega))

/-- A fueled decimal rendering is nonempty. -/
theorem natToDigitsAux_ne_nil :
    ∀ fuel n, n < fuel → natToDigitsAux fuel n ≠ [] := by
  intro fuel
  induction fuel with
  | zero => intro n h; omega
  | succ f ih =>
    intro n h
    simp only [natToDigitsAux]
    split
    · simp
    · simp

/-- Appending one character multiplies the accumulated value by ten. -/
theorem digitsVal_append_singleton (l : List Char) (c : Char) :
    digitsVal (l ++ [c]) = digitsVal l * 10 + (c.toNat - 48) := by
  simp [digitsVal, List.foldl_append]

/-- Parsing a fueled decimal rendering returns the rendered number. -/
theorem digitsVal_natToDigitsAux :
    ∀ fuel n, n < fuel → digitsVal (natToDigitsAux fuel n) = n := by
  intro fuel
  induction fuel with
  | zero => intro n h; omega
  | succ f ih =>
    intro n h
    simp only [natToDigitsAux]
    split
    · rename_i h10
      simp [digitsVal, digitChar_toNat n h10]
    · rename_i h10
      have hdiv : n / 10 < n := Nat.div_lt_self (by omega) (by omega)
      rw [digitsVal_append_singleton, ih (n / 10) (by omega),
        digitChar_toNat (n % 10) (Nat.mod_lt _ (by omega))]
      omega

/-- Every character of `natToDigits n` is a digit. -/
theorem natToDigits_all_digit (n : Nat) : ∀ c ∈ natToDigits n, c.isDigit = true :=
  natToDigitsAux_all_digit (n + 1) n (by omega)

/-- `natToDigits n` is nonempty. -/
theorem natToDigits_ne_nil (n : Nat) : natToDigits n ≠ [] :=
  natToDigitsAux_ne_nil (n + 1) n (by omega)

/-- `parseInt` inverts the decimal rendering. -/
theorem digitsVal_natToDigits (n : Nat) : digitsVal (natToDigits n) = n :=
  digitsVal_natToDigitsAux (n + 1) n (by omega)

/-- A decimal digit is not JavaScript whitespace. -/
theorem digit_not_space {c : Char} (h : c.isDigit = true) : isJsSpace c = false := by
  cases hsp : isJsSpace c
  · rfl
  · exfalso
    simp [isJsSpace] at hsp
    rcases hsp with ((rfl | rfl) | rfl) | rfl <;> exact absurd h (by decide)

/-- A decimal digit is not a comma. -/
theorem digit_ne_comma {c : Char} (h : c.isDigit = true) : (c == ',') = false := by
  cases hc : c == ','
  · rfl
  · exfalso
    have : c = ',' := by simpa using hc
    subst this
    exact absurd h (by decide)

/-- A word character is not JavaScript whitespace. -/
theorem wordChar_not_space {c : Char} (h : wordCharB c = true) : isJsSpace c = false := by
  cases hsp : isJsSpace c
  · rfl
  · exfalso
    simp [isJsSpace] at hsp
    rcases hsp with ((rfl | rfl) | rfl) | rfl <;> exact absurd h (by decide)

/-- A word character is not a comma. -/
theorem wordChar_ne_comma {c : Char} (h : wordCharB c = true) : (c == ',') = false := by
  cases hc : c == ','
  · rfl
  · exfalso
    have : c = ',' := by simpa using hc
    subst this
    exact absurd h (by decide)

/-- Splitting at a character absent from the list yields the singleton split. -/
theorem splitOnChar_no_sep (ch : Char) :
    ∀ l : List Char, (∀ c ∈ l, (c == ch) = false) → splitOnChar ch l = [l] := by
  intro l
  induction l with
  | nil => intro _; rfl
  | cons x xs ih =>
    intro h
    have hx : (x == ch) = false := h x (by simp)
    simp [splitOnChar, hx, ih (fun c hc => h c (List.mem_cons_of_mem _ hc))]

/-- Dropping with a predicate false on the head changes nothing. -/
theorem dropWhile_all_false (p : Char → Bool) :
    ∀ l : List Char, (∀ c ∈ l, p c = false) → l.dropWhile p = l := by
  intro l h
  cases l with
  | nil => rfl
  | cons x xs => simp [List.dropWhile, h x (by simp)]

/-- Trimming a whitespace-free list changes nothing. -/
theorem jsTrim_all_nonspace (l : List Char) (h : ∀ c ∈ l, isJsSpace c = false) :
    jsTrim l = l := by
  unfold jsTrim
  rw [dropWhile_all_false _ l h,
    dropWhile_all_false _ l.reverse (fun c hc => h c (List.mem_reverse.1 hc))]
  exact List.reverse_reverse l

/-- A run of matching characters followed by a non-matching head splits exactly
at the boundary. -/
theorem takeDropWhile_all_append (p : Char → Bool) :
    ∀ (ws rest : List Char), (∀ c ∈ ws, p c = true) →
    (∀ c, rest.head? = some c → p c = false) →
    (ws ++ rest).takeWhile p = ws ∧ (ws ++ rest).dropWhile p = rest := by
  intro ws
  induction ws with
  | nil =>
    intro rest _ hr
    cases rest with
    | nil => exact ⟨rfl, rfl⟩
    | cons r rs =>
      constructor
      · simp [List.takeWhile, hr r rfl]
      · simp [List.dropWhile, hr r rfl]
  | cons w wsi ih =>
    intro rest hw hr
    have hpw : p w = true := hw w (by simp)
    have hrec := ih rest (fun c hc => hw c (by simp [hc])) hr
    constructor
    · simp [List.takeWhile, hpw, hrec.1]
    · simp [List.dropWhile, hpw, hrec.2]

/-- A pattern is its own prefix. -/
theorem isPrefixChars_append (p : List Char) : ∀ q, isPrefixChars p (p ++ q) = true := by
  induction p with
  | nil => intro q; rfl
  | cons c cs ih => intro q; simp [isPrefixChars, ih]

/-- Stripping a literal prefix from a string that carries it. -/
theorem stripLit_append (p q : List Char) : stripLit p (p ++ q) = some q := by
  simp [stripLit, isPrefixChars_append]

/-- A matcher that already succeeds at position zero wins the search. -/
theorem searchM_head {α : Type} (f : List Char → Option α) (l : List Char) (a : α)
    (h : f l = some a) : searchM f l = some a := by
  cases l with
  | nil => exact h
  | cons c cs => simp [searchM, h]

/-- On the exact rendered shape, the word-argument matcher returns the word. -/
theorem tryWordArg_exact (pre ws : List Char) (hne : ws ≠ [])
    (hw : ∀ c ∈ ws, wordCharB c = true) :
    tryWordArg pre (pre ++ (ws ++ [')'])) = some ws := by
  unfold tryWordArg
  rw [stripLit_append]
  obtain ⟨ht, hd⟩ := takeDropWhile_all_append wordCharB ws [')'] hw
    (by intro c hc; simp at hc; rw [← hc]; decide)
  simp [ht, hd, hne]

/-- On the exact rendered shape, the hold matcher returns the rendered hours. -/
theorem tryHold_exact (n : Nat) :
    tryHold ("hold(hours=".data ++ (natToDigits n ++ [')'])) = some n := by
  unfold tryHold
  rw [stripLit_append]
  obtain ⟨ht, hd⟩ := takeDropWhile_all_append Char.isDigit (natToDigits n) [')']
    (natToDigits_all_digit n) (by intro c hc; simp at hc; rw [← hc]; decide)
  simp [ht, hd, natToDigits_ne_nil n, digitsVal_natToDigits n]

/-- A comma-free, whitespace-free action string is one split part, untrimmed. -/
theorem parseActions_single (chars : List Char)
    (hcomma : ∀ c ∈ chars, (c == ',') = false)
    (hspace : ∀ c ∈ chars, isJsSpace c = false) :
    parseActions (String.mk chars) = partAction chars := by
  unfold parseActions
  rw [show (String.mk chars).data = chars from rfl]
  rw [splitOnChar_no_sep ',' chars hcomma]
  simp [jsTrim_all_nonspace chars hspace]

/-- The rendered shape `pre ++ ws ++ ")"` is comma-free and whitespace-free when
its pieces are. -/
theorem concat_clean (pre ws : List Char)
    (hpc : ∀ c ∈ pre, (c == ',') = false) (hps : ∀ c ∈ pre, isJsSpace c = false)
    (hwc : ∀ c ∈ ws, (c == ',') = false) (hws : ∀ c ∈ ws, isJsSpace c = false) :
    (∀ c ∈ pre ++ (ws ++ [')']), (c == ',') = false) ∧
    (∀ c ∈ pre ++ (ws ++ [')']), isJsSpace c = false) := by
  constructor
  · intro c hc
    rcases List.mem_append.1 hc with h1 | h2
    · exact hpc c h1
    · rcases List.mem_append.1 h2 with h3 | h4
      · exact hwc c h3
      · simp at h4
        rw [h4]
        rfl
  · intro c hc
    rcases List.mem_append.1 hc with h1 | h2
    · exact hps c h1
    · rcases List.mem_append.1 h2 with h3 | h4
      · exact hws c h3
      · simp at h4
        rw [h4]
        rfl

/-- A list with a false `isEmpty` flag is not the empty list. -/
theorem ne_nil_of_isEmpty_false {l : List Char} (h : l.isEmpty = false) : l ≠ [] := by
  intro heq
  subst heq
  exact absurd h (by decide)

/-- C10 (amended): rendering an action with `actionToObligation` and parsing it
back with `parseActions` yields exactly that one action for every action type
except `tag` (with word-character string fields). A rendered `tag` contains a
comma, is split in two by the comma-splitting of `parseActions`, and is dropped
— see the counterexample. -/
theorem parseActions_actionToObligation_roundtrip (a : LawAction)
    (h : roundTrippable a = true) :
    parseActions (actionToObligation a) = [a] := by
  cases a with
  | accept => rfl
  | append_ledger => rfl
  | tag k v => simp [roundTrippable] at h
  | hold n =>
    have hwc : ∀ c ∈ natToDigits n, (c == ',') = false :=
      fun c hc => digit_ne_comma (natToDigits_all_digit n c hc)
    have hws : ∀ c ∈ natToDigits n, isJsSpace c = false :=
      fun c hc => digit_not_space (natToDigits_all_digit n c hc)
    obtain ⟨hcl, hsp⟩ := concat_clean "hold(hours=".data (natToDigits n)
      (by decide) (by decide) hwc hws
    rw [show actionToObligation (.hold n) =
        String.mk ("hold(hours=".data ++ (natToDigits n ++ [')'])) from rfl,
      parseActions_single _ hcl hsp,
      show partAction ("hold(hours=".data ++ (natToDigits n ++ [')'])) =
        (match searchM tryHold ("hold(hours=".data ++ (natToDigits n ++ [')'])) with
         | some k => [LawAction.hold k]
         | none => []) from rfl,
      searchM_head _ _ n (tryHold_exact n)]
  | terminate r =>
    simp only [roundTrippable, isWordStr, Bool.and_eq_true, Bool.not_eq_true',
      List.all_eq_true] at h
    have hwc : ∀ c ∈ r.data, (c == ',') = false :=
      fun c hc => wordChar_ne_comma (h.2 c hc)
    have hws : ∀ c ∈ r.data, isJsSpace c = false :=
      fun c hc => wordChar_not_space (h.2 c hc)
    obtain ⟨hcl, hsp⟩ := concat_clean "terminate(reason=".data r.data
      (by decide) (by decide) hwc hws
    rw [show actionToObligation (.terminate r) =
        String.mk ("terminate(reason=".data ++ (r.data ++ [')'])) from rfl,
      parseActions_single _ hcl hsp,
      show partAction ("terminate(reason=".data ++ (r.data ++ [')'])) =
        (match searchM (tryWordArg "terminate(reason=".data)
            ("terminate(reason=".data ++ (r.data ++ [')'])) with
         | some w => [LawAction.terminate (String.mk w)]
         | none => []) from rfl,
      searchM_head _ _ r.data (tryWordArg_exact _ r.data (ne_nil_of_isEmpty_false h.1) h.2)]
  | notify r =>
    simp only [roundTrippable, isWordStr, Bool.and_eq_true, Bool.not_eq_true',
      List.all_eq_true] at h
    have hwc : ∀ c ∈ r.data, (c == ',') = false :=
      fun c hc => wordChar_ne_comma (h.2 c hc)
    have hws : ∀ c ∈ r.data, isJsSpace c = false :=
      fun c hc => wordChar_not_space (h.2 c hc)
    obtain ⟨hcl, hsp⟩ := concat_clean "notify(role=".data r.data
      (by decide) (by decide) hwc hws
    rw [show actionToObligation (.notify r) =
        String.mk ("notify(role=".data ++ (r.data ++ [')'])) from rfl,
      parseActions_single _ hcl hsp,
      show partAction ("notify(role=".data ++ (r.data ++ [')'])) =
        (match searchM (tryWordArg "notify(role=".data)
            ("notify(role=".data ++ (r.data ++ [')'])) with
         | some w => [LawAction.notify (String.mk w)]
         | none => []) from rfl,
      searchM_head _ _ r.data (tryWordArg_exact _ r.data (ne_nil_of_isEmpty_false h.1) h.2)]
  | emit e =>
    simp only [roundTrippable, isWordStr, Bool.and_eq_true, Bool.not_eq_true',
      List.all_eq_true] at h
    have hwc : ∀ c ∈ e.data, (c == ',') = false :=
      fun c hc => wordChar_ne_comma (h.2 c hc)
    have hws : ∀ c ∈ e.data, isJsSpace c = false :=
      fun c hc => wordChar_not_space (h.2 c hc)
    obtain ⟨hcl, hsp⟩ := concat_clean "emit(event=".data e.data
      (by decide) (by decide) hwc hws
    rw [show actionToObligation (.emit e) =
        String.mk ("emit(event=".data ++ (e.data ++ [')'])) from rfl,
      parseActions_single _ hcl hsp,
      show partAction ("emit(event=".data ++ (e.data ++ [')'])) =
        (match searchM (tryWordArg "emit(event=".data)
            ("emit(event=".data ++ (e.data ++ [')'])) with
         | some w => [LawAction.emit (String.mk w)]
         | none => []) from rfl,
      searchM_head _ _ e.data (tryWordArg_exact _ e.data (ne_nil_of_isEmpty_false h.1) h.2)]

/-- Counterexample for C10: the canonical rendering of a `tag` action contains a
comma, so `parseActions` splits it in two unparseable halves and returns the
empty list instead of the original one-element list. -/
theorem parseActions_tag_roundtrip_fails :
    parseActions (actionToObligation (LawAction.tag "status" "accepted")) = [] ∧
    ([] : List LawAction) ≠ [LawAction.tag "status" "accepted"] := by
  constructor
  · rfl
  · simp

/-- Witness for C10 (amended): a `terminate` action with a word-character reason
round-trips. -/
theorem parseActions_actionToObligation_roundtrip_witness :
    roundTrippable (LawAction.terminate "deadline_passed") = true ∧
    parseActions (actionToObligation (LawAction.terminate "deadline_passed")) =
      [LawAction.terminate "deadline_passed"] :=
  ⟨by decide,
   parseActions_actionToObligation_roundtrip (LawAction.terminate "deadline_passed")
     (by decide)⟩
